import Mathlib

/-!
Shallow embedding of the pairing core of `pyslackrandomcoffee`
(`src/pairing.py`, plus the metadata wrapping of
`src/slack_client.py::post_message_with_metadata`).

Modelling conventions:
* Python strings are `String`; `PairList` and `PairHistory` follow the
  type aliases of `pairing.py`.
* Python exceptions are modelled with `Except PyError`: `PairingError`
  raised by the code, plus `KeyError` (`pair['user1']`,
  `members_previous_matches[member1]`), `ValueError` (`list.remove`) and
  `IndexError` (`available[-1]`) that the interpreter can raise.
* `dict.get` with an absent key is `Option`; a missing or falsy
  `metadata` entry of a Slack message is `none`.
* `random.shuffle` is modelled by quantifying over the shuffled list
  (a permutation of the input); each call of `random.choice(lst)` is
  modelled by an oracle `rand : Nat → Nat` giving the index
  `rand k % lst.length` of the k-th draw.
* `datetime.datetime.now().isoformat()` is an explicit `timestamp`
  argument.
-/

namespace RandomCoffee

open List (Perm)
open scoped List

abbrev PairList := List (String × String)

abbrev PairHistory := List PairList

/-- Python exceptions that the embedded code can raise. -/
inductive PyError where
  | pairingError (msg : String)
  | keyError (key : String)
  | valueError (val : String)
  | indexError (msg : String)
deriving Repr, DecidableEq

/-- One `{'user1': ..., 'user2': ...}` entry of a metadata `pairs` list;
`none` models an absent key. -/
structure PairEntry where
  user1 : Option String
  user2 : Option String
deriving Repr, DecidableEq

/-- The `event_payload` dictionary: keys `pairs`, `timestamp`, `count`,
each possibly absent. -/
structure Payload where
  pairs : Option (List PairEntry)
  timestamp : Option String
  count : Option Nat
deriving Repr, DecidableEq

/-- The empty dictionary `{}` used as default for
`metadata.get('event_payload', {})`. -/
def emptyPayload : Payload := ⟨none, none, none⟩

/-- A Slack message `metadata` dictionary. -/
structure Metadata where
  event_type : Option String
  event_payload : Option Payload
deriving Repr, DecidableEq

/-- A Slack message as seen by the decoder: only its `metadata` entry is
read; `none` models a message whose `metadata` is absent or falsy. -/
structure Message where
  metadata : Option Metadata
deriving Repr, DecidableEq

/-- `(pair['user1'], pair['user2'])`: a missing key raises `KeyError`
(`user1` is subscripted first). -/
def parsePair (p : PairEntry) : Except PyError (String × String) :=
  match p.user1 with
  | none => .error (.keyError "user1")
  | some u1 =>
    match p.user2 with
    | none => .error (.keyError "user2")
    | some u2 => .ok (u1, u2)

/-- The list comprehension
`[(pair['user1'], pair['user2']) for pair in pairs_data]`:
entries in order, the first `KeyError` aborts the whole list. -/
def parsePairs : List PairEntry → Except PyError PairList
  | [] => .ok []
  | p :: rest => do
    let pr ← parsePair p
    let prs ← parsePairs rest
    .ok (pr :: prs)

/-- The body of the decoder loop for one message: `.ok none` when the
message is skipped (no metadata, wrong `event_type`, or empty/absent
`pairs`), `.ok (some pl)` when it contributes the round `pl`, `.error`
when subscripting a malformed pair entry raises. -/
def decodeMessage (m : Message) : Except PyError (Option PairList) :=
  match m.metadata with
  | none => .ok none
  | some md =>
    if md.event_type ≠ some "random_coffee_pairs" then .ok none
    else
      let pairs_data := (md.event_payload.getD emptyPayload).pairs.getD []
      if pairs_data.isEmpty then .ok none
      else (parsePairs pairs_data).map some

/-- The `for message in messages` loop of
`parse_previous_pairs_from_metadata`, accumulating rounds in message
order; an exception raised while processing a message aborts the loop. -/
def parseLoop : List Message → Except PyError (List PairList)
  | [] => .ok []
  | m :: rest => do
    let contrib ← decodeMessage m
    let acc ← parseLoop rest
    match contrib with
    | none => .ok acc
    | some pl => .ok (pl :: acc)

/-- `parse_previous_pairs_from_metadata` (pairing.py lines 20-54). -/
def parse_previous_pairs_from_metadata (messages : List Message) :
    Except PyError (Option PairHistory) := do
  let previous_pairs ← parseLoop messages
  if previous_pairs.isEmpty then .ok none else .ok (some previous_pairs)

/-- `pairs_to_metadata` (pairing.py lines 193-209); the generation
timestamp is passed explicitly. -/
def pairs_to_metadata (pairs : PairList) (timestamp : String) : Payload :=
  { pairs := some (pairs.map fun p => ⟨some p.1, some p.2⟩)
    timestamp := some timestamp
    count := some pairs.length }

/-- The metadata wrapping of
`slack_client.py::post_message_with_metadata` (lines 272-277). -/
def metadata_formatted (payload : Payload) : Metadata :=
  { event_type := some "random_coffee_pairs", event_payload := some payload }

/-- The per-pair announcement message built by
`send_pair_notifications`. -/
def pair_message (channel_id : String) (p : String × String) : String :=
  "Hello <@" ++ p.1 ++ "> and <@" ++ p.2 ++ ">\n" ++
  "You have been randomly selected for <#" ++ channel_id ++ ">!\n" ++
  "Take some time to meet soon."

/-- The `for pair in pairs` loop of `send_pair_notifications`: returns
the list of `send_group_dm` invocations (pair and message, in order) and
the success / failure counters.  `deliver k p` tells whether the k-th
delivery attempt succeeds or raises. -/
def dispatchLoop (channel_id : String)
    (deliver : Nat → String × String → Bool) :
    Nat → PairList → List ((String × String) × String) × Nat × Nat
  | _, [] => ([], 0, 0)
  | k, p :: rest =>
    let message := pair_message channel_id p
    let res := dispatchLoop channel_id deliver (k + 1) rest
    ((p, message) :: res.1,
      (if deliver k p then 1 else 0) + res.2.1,
      (if deliver k p then 0 else 1) + res.2.2)

/-- Outcome of `send_pair_notifications`: the invocation trace, the two
counters, and the `PairingError` raised at the end, if any. -/
structure DispatchResult where
  calls : List ((String × String) × String)
  success_count : Nat
  fail_count : Nat
  error : Option PyError
deriving Repr, DecidableEq

/-- `send_pair_notifications` (pairing.py lines 212-246). -/
def send_pair_notifications (pairs : PairList) (channel_id : String)
    (deliver : Nat → String × String → Bool) : DispatchResult :=
  let res := dispatchLoop channel_id deliver 0 pairs
  { calls := res.1
    success_count := res.2.1
    fail_count := res.2.2
    error :=
      if 0 < res.2.2 ∧ res.2.1 = 0 then
        some (.pairingError
          ("Failed to send all " ++ toString res.2.2 ++ " group DMs"))
      else none }

/-- The per-message contribution extracted by the decoder loop when no
exception occurs: `none` when the message is skipped, `some pl` when it
contributes round `pl`. -/
def decodedRound (m : Message) : Option PairList :=
  match decodeMessage m with
  | .ok contrib => contrib
  | .error _ => none

/-- Concrete messages used as evaluation witnesses. -/
def goodMessage : Message :=
  ⟨some ⟨some "random_coffee_pairs",
    some ⟨some [⟨some "U1", some "U2"⟩], some "2024-01-01T00:00:00", some 1⟩⟩⟩

def textMessage : Message := ⟨none⟩

def malformedMessage : Message :=
  ⟨some ⟨some "random_coffee_pairs", some ⟨some [⟨some "U1", none⟩], none, none⟩⟩⟩

lemma parsePairs_encode (pairs : PairList) :
    parsePairs (pairs.map fun p => ⟨some p.1, some p.2⟩) = .ok pairs := by
  induction pairs with
  | nil => rfl
  | cons p rest ih =>
    simp [parsePairs, parsePair, ih, Except.bind, Bind.bind]

lemma parsePairs_length (entries : List PairEntry) (pl : PairList)
    (h : parsePairs entries = .ok pl) : pl.length = entries.length := by
  induction entries generalizing pl with
  | nil =>
    simp only [parsePairs] at h
    cases h
    rfl
  | cons p rest ih =>
    simp only [parsePairs, Bind.bind, Except.bind] at h
    cases hp : parsePair p with
    | error e => rw [hp] at h; cases h
    | ok pr =>
      rw [hp] at h
      cases hr : parsePairs rest with
      | error e => rw [hr] at h; cases h
      | ok prs =>
        rw [hr] at h
        cases h
        simp [ih prs hr]

lemma decodeMessage_metadata_none (m : Message) (hm : m.metadata = none) :
    decodeMessage m = .ok none := by
  unfold decodeMessage
  rw [hm]

lemma decodeMessage_metadata_some (m : Message) (md : Metadata)
    (hm : m.metadata = some md) :
    decodeMessage m =
      (if md.event_type ≠ some "random_coffee_pairs" then .ok none
       else
         let pairs_data := (md.event_payload.getD emptyPayload).pairs.getD []
         if pairs_data.isEmpty then .ok none
         else (parsePairs pairs_data).map some) := by
  unfold decodeMessage
  rw [hm]

lemma decodeMessage_some_nonempty (m : Message) (pl : PairList)
    (h : decodeMessage m = .ok (some pl)) : pl ≠ [] := by
  cases hm : m.metadata with
  | none => rw [decodeMessage_metadata_none m hm] at h; cases h
  | some md =>
    rw [decodeMessage_metadata_some m md hm] at h
    by_cases ht : md.event_type ≠ some "random_coffee_pairs"
    · rw [if_pos ht] at h; cases h
    · rw [if_neg ht] at h
      by_cases he : ((md.event_payload.getD emptyPayload).pairs.getD []).isEmpty
      · rw [if_pos he] at h; cases h
      · rw [if_neg he] at h
        cases hp : parsePairs ((md.event_payload.getD emptyPayload).pairs.getD []) with
        | error e => rw [hp] at h; cases h
        | ok l =>
          rw [hp] at h
          simp only [Except.map] at h
          cases h
          have hlen := parsePairs_length _ _ hp
          intro hnil
          subst hnil
          rw [List.isEmpty_iff] at he
          exact he (List.length_eq_zero.mp hlen.symm)

lemma parseLoop_skip (m : Message) (rest : List Message)
    (h : decodeMessage m = .ok none) :
    parseLoop (m :: rest) = parseLoop rest := by
  simp only [parseLoop, Bind.bind, Except.bind, h]
  cases parseLoop rest <;> rfl

lemma skip_decodes_none (m : Message)
    (hskip : m.metadata = none ∨
      ∃ md, m.metadata = some md ∧ md.event_type ≠ some "random_coffee_pairs") :
    decodeMessage m = .ok none := by
  rcases hskip with hnone | ⟨md, hmd, ht⟩
  · exact decodeMessage_metadata_none m hnone
  · rw [decodeMessage_metadata_some m md hmd, if_pos ht]

lemma parseLoop_filterMap (messages : List Message) (rounds : List PairList)
    (h : parseLoop messages = .ok rounds) :
    rounds = messages.filterMap decodedRound := by
  induction messages generalizing rounds with
  | nil =>
    simp only [parseLoop] at h
    cases h
    rfl
  | cons m rest ih =>
    simp only [parseLoop, Bind.bind, Except.bind] at h
    cases hd : decodeMessage m with
    | error e => rw [hd] at h; cases h
    | ok contrib =>
      rw [hd] at h
      cases hr : parseLoop rest with
      | error e => rw [hr] at h; cases h
      | ok acc =>
        rw [hr] at h
        cases contrib with
        | none =>
          cases h
          simp [List.filterMap_cons, decodedRound, hd, ih _ hr]
        | some pl =>
          cases h
          simp [List.filterMap_cons, decodedRound, hd, ih _ hr]

/-- C2: encoding a non-empty round with `pairs_to_metadata`, wrapping it
as `post_message_with_metadata` does, and decoding a one-message history
containing that metadata yields exactly that round back, per-pair order
and round order preserved, timestamp and count ignored. -/
theorem metadata_roundtrip (pairs : PairList) (timestamp : String)
    (h : pairs ≠ []) :
    parse_previous_pairs_from_metadata
        [⟨some (metadata_formatted (pairs_to_metadata pairs timestamp))⟩]
      = .ok (some [pairs]) := by
  have hne : (pairs.map fun p => (⟨some p.1, some p.2⟩ : PairEntry)) ≠ [] := by
    simpa using h
  simp [parse_previous_pairs_from_metadata, parseLoop, decodeMessage,
    metadata_formatted, pairs_to_metadata, emptyPayload, Bind.bind, Except.bind,
    List.isEmpty_iff, hne, parsePairs_encode, Except.map, h]

/-- C2 witness: the round-trip evaluated on a concrete two-pair round. -/
theorem metadata_roundtrip_witness :
    ([("U1", "U2"), ("U3", "U4")] : PairList) ≠ [] ∧
    parse_previous_pairs_from_metadata
        [⟨some (metadata_formatted
          (pairs_to_metadata [("U1", "U2"), ("U3", "U4")] "2024-01-01T00:00:00"))⟩]
      = .ok (some [[("U1", "U2"), ("U3", "U4")]]) :=
  ⟨by decide,
    metadata_roundtrip [("U1", "U2"), ("U3", "U4")] "2024-01-01T00:00:00" (by decide)⟩

/-- C7: a record without metadata or without the
`random_coffee_pairs` marker is silently skipped; record order is
preserved as round order (the successful decode is the in-order
`filterMap` of the per-record contributions); and when no record
contributes, the decoder returns the distinguished `none` rather than an
empty history. -/
theorem parse_skips_and_preserves_order (m : Message)
    (rest messages : List Message) (rounds : List PairList)
    (hskip : m.metadata = none ∨
      ∃ md, m.metadata = some md ∧ md.event_type ≠ some "random_coffee_pairs")
    (hok : parseLoop messages = .ok rounds) :
    parse_previous_pairs_from_metadata (m :: rest)
        = parse_previous_pairs_from_metadata rest ∧
    rounds = messages.filterMap decodedRound ∧
    parse_previous_pairs_from_metadata messages
        = .ok (if rounds = [] then none else some rounds) := by
  refine ⟨?_, parseLoop_filterMap messages rounds hok, ?_⟩
  · have hskipLoop := parseLoop_skip m rest (skip_decodes_none m hskip)
    simp [parse_previous_pairs_from_metadata, hskipLoop]
  · simp only [parse_previous_pairs_from_metadata, Bind.bind, Except.bind, hok]
    by_cases hr : rounds = []
    · simp [hr]
    · simp [hr, List.isEmpty_iff]

/-- C7 witness: evaluated on a metadata-free record followed by a
matching record. -/
theorem parse_skips_witness :
    (textMessage.metadata = none ∨
      ∃ md, textMessage.metadata = some md ∧
        md.event_type ≠ some "random_coffee_pairs") ∧
    parseLoop [goodMessage] = .ok [[("U1", "U2")]] ∧
    (parse_previous_pairs_from_metadata [textMessage, goodMessage]
        = parse_previous_pairs_from_metadata [goodMessage] ∧
      [[("U1", "U2")]] = [goodMessage].filterMap decodedRound ∧
      parse_previous_pairs_from_metadata [goodMessage]
        = .ok (if [[("U1", "U2")]] = ([] : List PairList) then none
            else some [[("U1", "U2")]])) :=
  ⟨Or.inl rfl, by rfl,
    parse_skips_and_preserves_order textMessage [goodMessage] [goodMessage]
      [[("U1", "U2")]] (Or.inl rfl) (by rfl)⟩

/-- C8 counterexample: a record carrying the `random_coffee_pairs`
marker whose pair entry lacks the `user2` field makes the decoder raise
`KeyError`, aborting the whole decode instead of contributing zero pairs
and proceeding with the remaining records. -/
theorem parse_malformed_pair_entry_raises :
    parse_previous_pairs_from_metadata [malformedMessage, goodMessage]
      = .error (.keyError "user2") := by rfl

/-- C8 (amended): a record carrying the marker whose payload has no
`event_payload`, no `pairs` list, or an empty `pairs` list contributes
zero pairs and decoding proceeds with the remaining records; but a pair
entry lacking a `user1`/`user2` field raises a `KeyError` that aborts
the whole decode (see the counterexample). -/
theorem parse_incomplete_payload_contributes_nothing (md : Metadata)
    (rest : List Message)
    (hmarker : md.event_type = some "random_coffee_pairs")
    (hshape : (md.event_payload.getD emptyPayload).pairs.getD [] = []) :
    parse_previous_pairs_from_metadata (⟨some md⟩ :: rest)
      = parse_previous_pairs_from_metadata rest := by
  have hd : decodeMessage ⟨some md⟩ = .ok none := by
    unfold decodeMessage
    simp [hmarker, hshape]
  have hskipLoop := parseLoop_skip ⟨some md⟩ rest hd
  simp [parse_previous_pairs_from_metadata, hskipLoop]

/-- C8 (amended) witness: a marker record with no `event_payload` at
all, followed by a matching record. -/
theorem parse_incomplete_payload_witness :
    (Metadata.event_type ⟨some "random_coffee_pairs", none⟩
        = some "random_coffee_pairs") ∧
    ((Metadata.event_payload ⟨some "random_coffee_pairs", none⟩).getD
        emptyPayload).pairs.getD [] = [] ∧
    parse_previous_pairs_from_metadata
        [⟨some ⟨some "random_coffee_pairs", none⟩⟩, goodMessage]
      = parse_previous_pairs_from_metadata [goodMessage] :=
  ⟨rfl, rfl,
    parse_incomplete_payload_contributes_nothing
      ⟨some "random_coffee_pairs", none⟩ [goodMessage] rfl rfl⟩

/-- C9: every round in a successfully decoded history is non-empty — a
record matching the marker with an empty or absent pairs list is dropped
entirely, so the decoder never returns a round with zero pairs. -/
theorem parsed_rounds_nonempty (messages : List Message)
    (rounds : PairHistory)
    (h : parse_previous_pairs_from_metadata messages = .ok (some rounds)) :
    ∀ r ∈ rounds, r ≠ [] := by
  have hloop : parseLoop messages = .ok rounds := by
    simp only [parse_previous_pairs_from_metadata, Bind.bind, Except.bind] at h
    cases hp : parseLoop messages with
    | error e => rw [hp] at h; cases h
    | ok prev =>
      rw [hp] at h
      by_cases he : prev.isEmpty
      · simp [he] at h
      · simp only [he, Bool.false_eq_true, if_false] at h
        cases h
        rfl
  clear h
  induction messages generalizing rounds with
  | nil =>
    simp only [parseLoop] at hloop
    cases hloop
    simp
  | cons m rest ih =>
    simp only [parseLoop, Bind.bind, Except.bind] at hloop
    cases hd : decodeMessage m with
    | error e => rw [hd] at hloop; cases hloop
    | ok contrib =>
      rw [hd] at hloop
      cases hr : parseLoop rest with
      | error e => rw [hr] at hloop; cases hloop
      | ok acc =>
        rw [hr] at hloop
        cases contrib with
        | none =>
          cases hloop
          exact ih _ hr
        | some pl =>
          cases hloop
          intro r hrmem
          rcases List.mem_cons.mp hrmem with hrpl | hracc
          · subst hrpl
            exact decodeMessage_some_nonempty m r hd
          · exact ih _ hr r hracc

/-- C9 witness: evaluated on a one-record history. -/
theorem parsed_rounds_nonempty_witness :
    parse_previous_pairs_from_metadata [goodMessage]
        = .ok (some [[("U1", "U2")]]) ∧
    ∀ r ∈ ([[("U1", "U2")]] : PairHistory), r ≠ [] :=
  ⟨by rfl, parsed_rounds_nonempty [goodMessage] [[("U1", "U2")]] (by rfl)⟩

lemma dispatchLoop_calls (channel_id : String)
    (deliver : Nat → String × String → Bool) :
    ∀ (k : Nat) (pairs : PairList),
      (dispatchLoop channel_id deliver k pairs).1
        = pairs.map (fun p => (p, pair_message channel_id p))
  | _, [] => rfl
  | k, p :: rest => by
    simp [dispatchLoop, dispatchLoop_calls channel_id deliver (k + 1) rest]

lemma dispatchLoop_counts_sum (channel_id : String)
    (deliver : Nat → String × String → Bool) :
    ∀ (k : Nat) (pairs : PairList),
      (dispatchLoop channel_id deliver k pairs).2.1
        + (dispatchLoop channel_id deliver k pairs).2.2 = pairs.length
  | _, [] => rfl
  | k, p :: rest => by
    have ih := dispatchLoop_counts_sum channel_id deliver (k + 1) rest
    cases hd : deliver k p <;> simp [dispatchLoop, hd] <;> omega

lemma dispatchLoop_success_eq_zero (channel_id : String)
    (deliver : Nat → String × String → Bool) :
    ∀ (k : Nat) (pairs : PairList),
      ((dispatchLoop channel_id deliver k pairs).2.1 = 0 ↔
        ∀ i < pairs.length, deliver (k + i) (pairs.getD i ("", "")) = false)
  | k, [] => by simp [dispatchLoop]
  | k, p :: rest => by
    have ih := dispatchLoop_success_eq_zero channel_id deliver (k + 1) rest
    cases hd : deliver k p with
    | true =>
      simp only [dispatchLoop, hd, if_true]
      constructor
      · intro h
        omega
      · intro h
        have h0 := h 0 (by simp)
        rw [List.getD_cons_zero, Nat.add_zero] at h0
        rw [hd] at h0
        cases h0
    | false =>
      simp only [dispatchLoop, hd, Bool.false_eq_true, if_false, Nat.zero_add]
      rw [ih]
      constructor
      · intro h i hi
        cases i with
        | zero =>
          rw [List.getD_cons_zero, Nat.add_zero]
          exact hd
        | succ j =>
          rw [List.getD_cons_succ]
          have hj : j < rest.length := by
            simp only [List.length_cons] at hi
            omega
          have harith : k + (j + 1) = k + 1 + j := by omega
          rw [harith]
          exact h j hj
      · intro h j hj
        have hsucc : j + 1 < (p :: rest).length := by
          simp only [List.length_cons]
          omega
        have := h (j + 1) hsucc
        rw [List.getD_cons_succ] at this
        have harith : k + (j + 1) = k + 1 + j := by omega
        rw [harith] at this
        exact this

/-- C4: `send_pair_notifications` raises its `PairingError` exactly
when at least one pair existed and every delivery failed; with at least
one success it returns normally despite other failures, and it returns
normally on an empty round. -/
theorem notifications_error_iff_all_failed (pairs : PairList)
    (channel_id : String) (deliver : Nat → String × String → Bool) :
    (send_pair_notifications pairs channel_id deliver).error.isSome ↔
      (pairs ≠ [] ∧
        ∀ i < pairs.length, deliver i (pairs.getD i ("", "")) = false) := by
  have hsum := dispatchLoop_counts_sum channel_id deliver 0 pairs
  have hzero := dispatchLoop_success_eq_zero channel_id deliver 0 pairs
  simp only [Nat.zero_add] at hzero
  have herr : (send_pair_notifications pairs channel_id deliver).error
      = if 0 < (dispatchLoop channel_id deliver 0 pairs).2.2
            ∧ (dispatchLoop channel_id deliver 0 pairs).2.1 = 0
        then some (.pairingError ("Failed to send all "
          ++ toString (dispatchLoop channel_id deliver 0 pairs).2.2
          ++ " group DMs"))
        else none := rfl
  rw [herr]
  by_cases hc : 0 < (dispatchLoop channel_id deliver 0 pairs).2.2
      ∧ (dispatchLoop channel_id deliver 0 pairs).2.1 = 0
  · rw [if_pos hc]
    simp only [Option.isSome_some, true_iff]
    refine ⟨?_, hzero.mp hc.2⟩
    intro hnil
    have hlen : pairs.length = 0 := by rw [hnil]; rfl
    omega
  · rw [if_neg hc]
    simp only [Option.isSome_none, Bool.false_eq_true, false_iff]
    intro ⟨hne, hall⟩
    apply hc
    have hs : (dispatchLoop channel_id deliver 0 pairs).2.1 = 0 := hzero.mpr hall
    have hlen : 0 < pairs.length := List.length_pos.mpr hne
    omega

/-- C5: for every round, the notifier is invoked exactly once per pair,
in round order, with the per-pair announcement message, regardless of
which deliveries fail — a failure never prevents later attempts. -/
theorem notifier_called_once_per_pair (pairs : PairList)
    (channel_id : String) (deliver : Nat → String × String → Bool) :
    (send_pair_notifications pairs channel_id deliver).calls
      = pairs.map (fun p => (p, pair_message channel_id p)) := by
  unfold send_pair_notifications
  exact dispatchLoop_calls channel_id deliver 0 pairs

/-- The `Dict[str, Set[str]]` of previous matches, as an association
list; the set value is read only through membership. -/
abbrev MatchDict := List (String × List String)

/-- A Python `dict` subscript `d[k]`: `none` models a `KeyError`. -/
def dictLookup (d : MatchDict) (k : String) : Option (List String) :=
  (d.find? (fun kv => kv.1 == k)).map (fun kv => kv.2)

/-- The partners collected for `member` by the scan in
`build_previous_matches_dict`: for each past pair, the other side is
added when `p1 == member`, `elif p2 == member` the first side. -/
def prevPartners (member : String) (previous_pairs : PairHistory) :
    List String :=
  previous_pairs.foldl
    (fun acc pair_set =>
      pair_set.foldl
        (fun acc2 p =>
          if p.1 == member then acc2 ++ [p.2]
          else if p.2 == member then acc2 ++ [p.1]
          else acc2)
        acc)
    []

/-- `build_previous_matches_dict` (pairing.py lines 57-80): every member
gets an entry; with falsy (`None` or empty) history every avoid-set is
empty. -/
def build_previous_matches_dict (members : List String)
    (previous_pairs : Option PairHistory) : MatchDict :=
  match previous_pairs with
  | none => members.map (fun member => (member, []))
  | some pp =>
    if pp.isEmpty then members.map (fun member => (member, []))
    else members.map (fun member => (member, prevPartners member pp))

/-- One call of `random.choice(l)`, drawing index `r % l.length`. -/
def choiceIdx (r : Nat) (l : List String) : String :=
  l.getD (r % l.length) ""

/-- `find_best_match` (pairing.py lines 83-116). -/
def find_best_match (member1 : String) (available_members : List String)
    (members_previous_matches : MatchDict) (r : Nat) :
    Except PyError String :=
  if available_members.isEmpty then
    .error (.pairingError ("No available members to match with " ++ member1))
  else
    match dictLookup members_previous_matches member1 with
    | none => .error (.keyError member1)
    | some avoid =>
      let new_candidates :=
        available_members.filter (fun member => !(avoid.contains member))
      if !new_candidates.isEmpty then .ok (choiceIdx r new_candidates)
      else .ok (choiceIdx r available_members)

/-- `list.remove(x)` drops the first occurrence of `x`. -/
def removeFirst : List String → String → List String
  | [], _ => []
  | y :: ys, x => if y == x then ys else y :: removeFirst ys x

lemma removeFirst_length_le (l : List String) (x : String) :
    (removeFirst l x).length ≤ l.length := by
  induction l with
  | nil => simp [removeFirst]
  | cons y ys ih =>
    by_cases h : y == x
    · simp [removeFirst, h]
    · simp only [removeFirst, h, Bool.false_eq_true, if_false, List.length_cons]
      omega

/-- The `while available` loop of `generate_pairs` (lines 147-158):
`pop()` takes the last element, the chosen partner is removed with
`list.remove`; in the one-element case the saved `first_member` is
matched against the remaining pool. -/
def genLoop (mpm : MatchDict) (first_member : String) (rand : Nat → Nat) :
    Nat → List String → Except PyError PairList
  | _, [] => .ok []
  | k, [a] =>
    match find_best_match first_member [a] mpm (rand k) with
    | .error e => .error e
    | .ok member2 =>
      if member2 == a then .ok [(first_member, member2)]
      else .error (.valueError member2)
  | k, a :: b :: rest =>
    let member1 := (a :: b :: rest).getLastD ""
    let remaining := (a :: b :: rest).dropLast
    match find_best_match member1 remaining mpm (rand k) with
    | .error e => .error e
    | .ok member2 =>
      if remaining.contains member2 then
        match genLoop mpm first_member rand (k + 1)
            (removeFirst remaining member2) with
        | .error e => .error e
        | .ok more => .ok ((member1, member2) :: more)
      else .error (.valueError member2)
termination_by k l => l.length
decreasing_by
  have h1 := removeFirst_length_le ((a :: b :: rest).dropLast) member2
  simp only [List.dropLast_cons₂, List.length_cons, List.length_dropLast] at h1 ⊢
  omega

/-- `generate_pairs` (pairing.py lines 119-161); `shuffled` is the
shuffled private copy of `members` and `rand` the choice oracle. -/
def generate_pairs (members : List String)
    (previous_pairs : Option PairHistory) (shuffled : List String)
    (rand : Nat → Nat) : Except PyError PairList :=
  if members.isEmpty then .ok []
  else
    let members_previous_matches :=
      build_previous_matches_dict members previous_pairs
    match shuffled with
    | [] => .error (.indexError "list index out of range")
    | a :: rest =>
      let first_member := (a :: rest).getLastD ""
      genLoop members_previous_matches first_member rand 0 (a :: rest)

/-- The members named across all pairs of a round, with multiplicity. -/
def pairsFlat (pairs : PairList) : List String :=
  pairs.foldr (fun p acc => p.1 :: p.2 :: acc) []

lemma pairsFlat_cons (p : String × String) (ps : PairList) :
    pairsFlat (p :: ps) = p.1 :: p.2 :: pairsFlat ps := rfl

lemma pairsFlat_length (pairs : PairList) :
    (pairsFlat pairs).length = 2 * pairs.length := by
  induction pairs with
  | nil => rfl
  | cons p ps ih =>
    rw [pairsFlat_cons]
    simp only [List.length_cons, ih]
    omega

lemma choiceIdx_mem (r : Nat) (l : List String) (h : l ≠ []) :
    choiceIdx r l ∈ l := by
  unfold choiceIdx
  have hlen : 0 < l.length := List.length_pos.mpr h
  have hlt : r % l.length < l.length := Nat.mod_lt _ hlen
  rw [List.getD_eq_getElem l "" hlt]
  exact List.getElem_mem hlt

lemma mapDict_lookup (g : String → List String) (members : List String)
    (x : String) (hx : x ∈ members) :
    dictLookup (members.map fun member => (member, g member)) x
      = some (g x) := by
  induction members with
  | nil => cases hx
  | cons m ms ih =>
    unfold dictLookup
    rw [List.map_cons]
    by_cases hmx : m == x
    · have hm : m = x := eq_of_beq hmx
      subst hm
      rw [List.find?_cons_of_pos _ (by simp)]
      rfl
    · rw [List.find?_cons_of_neg _ (by simpa using hmx)]
      rcases List.mem_cons.mp hx with h1 | h2
      · exact absurd (beq_iff_eq.mpr h1.symm) hmx
      · have hrec := ih h2
        unfold dictLookup at hrec
        exact hrec

lemma dictLookup_build (members : List String) (pp : Option PairHistory)
    (x : String) (hx : x ∈ members) :
    ∃ av, dictLookup (build_previous_matches_dict members pp) x = some av := by
  cases pp with
  | none => exact ⟨_, mapDict_lookup (fun _ => []) members x hx⟩
  | some l =>
    have hred : build_previous_matches_dict members (some l)
        = if l.isEmpty then members.map (fun member => (member, []))
          else members.map (fun member => (member, prevPartners member l)) := rfl
    rw [hred]
    by_cases h : l.isEmpty
    · rw [if_pos h]
      exact ⟨_, mapDict_lookup (fun _ => []) members x hx⟩
    · rw [if_neg h]
      exact ⟨_, mapDict_lookup (fun member => prevPartners member l) members x hx⟩

lemma find_best_match_eq (member1 : String) (avail : List String)
    (mpm : MatchDict) (r : Nat) (avoid : List String)
    (hne : avail ≠ []) (hk : dictLookup mpm member1 = some avoid) :
    find_best_match member1 avail mpm r =
      if !((avail.filter fun member => !(avoid.contains member)).isEmpty)
      then .ok (choiceIdx r (avail.filter fun member => !(avoid.contains member)))
      else .ok (choiceIdx r avail) := by
  unfold find_best_match
  rw [if_neg (by simp [List.isEmpty_iff, hne]), hk]

lemma find_best_match_ok (member1 : String) (avail : List String)
    (mpm : MatchDict) (r : Nat) (avoid : List String)
    (hne : avail ≠ []) (hk : dictLookup mpm member1 = some avoid) :
    ∃ m2, find_best_match member1 avail mpm r = .ok m2 ∧ m2 ∈ avail := by
  rw [find_best_match_eq member1 avail mpm r avoid hne hk]
  cases hc : (avail.filter fun member => !(avoid.contains member)).isEmpty with
  | true =>
    rw [if_neg (by decide)]
    exact ⟨_, rfl, choiceIdx_mem r avail hne⟩
  | false =>
    rw [if_pos (by decide)]
    refine ⟨_, rfl, ?_⟩
    have hmem := choiceIdx_mem r (avail.filter fun member => !(avoid.contains member))
      (List.isEmpty_eq_false.mp hc)
    exact (List.mem_filter.mp hmem).1

lemma find_best_match_avoid_free (member1 : String) (avail : List String)
    (mpm : MatchDict) (r : Nat) (avoid : List String) (m2 : String)
    (hk : dictLookup mpm member1 = some avoid)
    (hex : ∃ m ∈ avail, ¬ m ∈ avoid)
    (hok : find_best_match member1 avail mpm r = .ok m2) :
    ¬ m2 ∈ avoid := by
  obtain ⟨m, hm, hmav⟩ := hex
  have hne : avail ≠ [] := by
    intro he; rw [he] at hm; cases hm
  have hfne : (avail.filter fun member => !(avoid.contains member)) ≠ [] := by
    intro he
    have hmf : m ∈ avail.filter fun member => !(avoid.contains member) :=
      List.mem_filter.mpr ⟨hm, by simpa [List.elem_iff] using hmav⟩
    rw [he] at hmf
    cases hmf
  rw [find_best_match_eq member1 avail mpm r avoid hne hk,
    if_pos (by rw [List.isEmpty_eq_false.mpr hfne]; decide)] at hok
  have hmem := choiceIdx_mem r (avail.filter fun member => !(avoid.contains member)) hfne
  injection hok with hok
  rw [← hok]
  have hfil := (List.mem_filter.mp hmem).2
  simpa [List.elem_iff] using hfil

lemma choiceIdx_singleton (r : Nat) (a : String) : choiceIdx r [a] = a := by
  show [a].getD (r % [a].length) "" = a
  have hlen : [a].length = 1 := rfl
  rw [hlen, Nat.mod_one]
  rfl

lemma find_best_match_singleton (member1 a : String) (mpm : MatchDict)
    (r : Nat) (avoid : List String)
    (hk : dictLookup mpm member1 = some avoid) :
    find_best_match member1 [a] mpm r = .ok a := by
  rw [find_best_match_eq member1 [a] mpm r avoid (by simp) hk]
  cases hca : avoid.contains a with
  | true =>
    have hmem : a ∈ avoid := by simpa using hca
    have hfil : ([a].filter fun member => !(avoid.contains member)) = [] := by
      simp [List.filter_cons, hmem]
    rw [hfil, if_neg (by simp), choiceIdx_singleton]
  | false =>
    have hmem : ¬ a ∈ avoid := by simpa using hca
    have hfil : ([a].filter fun member => !(avoid.contains member)) = [a] := by
      simp [List.filter_cons, hmem]
    rw [hfil, if_pos (show (!([a] : List String).isEmpty) = true from rfl), choiceIdx_singleton]

lemma removeFirst_perm (l : List String) (x : String) (h : x ∈ l) :
    l.Perm (x :: removeFirst l x) := by
  induction l with
  | nil => cases h
  | cons y ys ih =>
    by_cases hyx : y == x
    · have hy : y = x := eq_of_beq hyx
      subst hy
      simp [removeFirst]
    · have hmem : x ∈ ys := by
        rcases List.mem_cons.mp h with h1 | h2
        · exact absurd (beq_iff_eq.mpr h1.symm) hyx
        · exact h2
      have step : (y :: ys).Perm (y :: (x :: removeFirst ys x)) :=
        (ih hmem).cons y
      have hrw : removeFirst (y :: ys) x = y :: removeFirst ys x := by
        simp [removeFirst, hyx]
      rw [hrw]
      exact step.trans (List.Perm.swap x y (removeFirst ys x))

lemma removeFirst_subset {l : List String} {x y : String}
    (h : y ∈ removeFirst l x) : y ∈ l := by
  induction l with
  | nil => cases h
  | cons z zs ih =>
    by_cases hzx : z == x
    · rw [show removeFirst (z :: zs) x = zs by simp [removeFirst, hzx]] at h
      exact List.mem_cons_of_mem z h
    · rw [show removeFirst (z :: zs) x = z :: removeFirst zs x by
        simp [removeFirst, hzx]] at h
      rcases List.mem_cons.mp h with h1 | h2
      · exact h1 ▸ List.mem_cons_self z zs
      · exact List.mem_cons_of_mem z (ih h2)

lemma getLastD_mem_of_ne_nil (l : List String) (h : l ≠ []) :
    l.getLastD "" ∈ l := by
  rw [List.getLastD_eq_getLast?, List.getLast?_eq_getLast l h]
  simpa using List.getLast_mem h

lemma cons_perm_getLastD_dropLast (l : List String) (h : l ≠ []) :
    l.Perm (l.getLastD "" :: l.dropLast) := by
  rw [List.getLastD_eq_getLast?, List.getLast?_eq_getLast l h]
  have happ := List.dropLast_append_getLast h
  calc l = l.dropLast ++ [l.getLast h] := happ.symm
    _ ~ l.getLast h :: l.dropLast := List.perm_append_singleton _ _
    _ = (some (l.getLast h)).getD "" :: l.dropLast := rfl

lemma genLoop_singleton (mpm : MatchDict) (fm : String) (rand : Nat → Nat)
    (k : Nat) (a : String) (avoid : List String)
    (hk : dictLookup mpm fm = some avoid) :
    genLoop mpm fm rand k [a] = .ok [(fm, a)] := by
  simp only [genLoop]
  rw [find_best_match_singleton fm a mpm (rand k) avoid hk]
  simp

lemma genLoop_cons_cons_step (mpm : MatchDict) (fm : String)
    (rand : Nat → Nat) (k : Nat) (a b : String) (rest : List String)
    (m2 : String)
    (hm2ok : find_best_match ((a :: b :: rest).getLastD "")
        ((a :: b :: rest).dropLast) mpm (rand k) = .ok m2)
    (hcont : ((a :: b :: rest).dropLast).contains m2 = true) :
    genLoop mpm fm rand k (a :: b :: rest)
      = (genLoop mpm fm rand (k + 1)
          (removeFirst ((a :: b :: rest).dropLast) m2)).map
          (fun more => ((a :: b :: rest).getLastD "", m2) :: more) := by
  simp only [genLoop]
  rw [hm2ok]
  show (if ((a :: b :: rest).dropLast).contains m2 = true then
      match genLoop mpm fm rand (k + 1)
          (removeFirst ((a :: b :: rest).dropLast) m2) with
      | Except.error e => (Except.error e : Except PyError PairList)
      | Except.ok more => Except.ok (((a :: b :: rest).getLastD "", m2) :: more)
    else Except.error (PyError.valueError m2))
    = (genLoop mpm fm rand (k + 1)
        (removeFirst ((a :: b :: rest).dropLast) m2)).map
        (fun more => ((a :: b :: rest).getLastD "", m2) :: more)
  rw [if_pos hcont]
  cases genLoop mpm fm rand (k + 1)
    (removeFirst ((a :: b :: rest).dropLast) m2) <;> rfl

lemma genLoop_spec (mpm : MatchDict) (fm : String) (rand : Nat → Nat)
    (avfm : List String) (hfm : dictLookup mpm fm = some avfm) :
    ∀ (n : Nat) (l : List String), l.length ≤ n → ∀ (k : Nat),
      (∀ x ∈ l, ∃ av, dictLookup mpm x = some av) →
      ∃ pairs, genLoop mpm fm rand k l = .ok pairs ∧
        ((l.length % 2 = 0 ∧ (pairsFlat pairs).Perm l) ∨
         (l.length % 2 = 1 ∧ (pairsFlat pairs).Perm (fm :: l))) := by
  intro n
  induction n with
  | zero =>
    intro l hlen k _
    have hnil : l = [] := List.length_eq_zero.mp (Nat.le_zero.mp hlen)
    subst hnil
    exact ⟨[], by simp [genLoop], Or.inl ⟨rfl, List.Perm.refl []⟩⟩
  | succ n ih =>
    intro l hlen k hkeys
    rcases l with _ | ⟨a, l2⟩
    · exact ⟨[], by simp [genLoop], Or.inl ⟨rfl, List.Perm.refl []⟩⟩
    rcases l2 with _ | ⟨b, rest⟩
    · exact ⟨[(fm, a)], genLoop_singleton mpm fm rand k a avfm hfm,
        Or.inr ⟨rfl, List.Perm.refl [fm, a]⟩⟩
    have hLne : (a :: b :: rest) ≠ [] := by simp
    have hm1mem : (a :: b :: rest).getLastD "" ∈ (a :: b :: rest) :=
      getLastD_mem_of_ne_nil _ hLne
    obtain ⟨av1, hav1⟩ := hkeys _ hm1mem
    have hremlen : ((a :: b :: rest).dropLast).length = rest.length + 1 := by
      simp
    have hremne : ((a :: b :: rest).dropLast) ≠ [] := by
      intro he
      rw [he] at hremlen
      cases hremlen
    obtain ⟨m2, hm2ok, hm2mem⟩ :=
      find_best_match_ok ((a :: b :: rest).getLastD "")
        ((a :: b :: rest).dropLast) mpm (rand k) av1 hremne hav1
    have hcont : ((a :: b :: rest).dropLast).contains m2 = true := by
      simpa using hm2mem
    have hRperm := removeFirst_perm ((a :: b :: rest).dropLast) m2 hm2mem
    have hlen2 : (removeFirst ((a :: b :: rest).dropLast) m2).length
        = rest.length := by
      have e1 := hRperm.length_eq
      rw [List.length_cons] at e1
      omega
    obtain ⟨pairs2, hrec, hpar⟩ :=
      ih (removeFirst ((a :: b :: rest).dropLast) m2)
        (by
          simp only [List.length_cons] at hlen
          omega)
        (k + 1)
        (fun x hx => hkeys x
          ((List.dropLast_sublist (a :: b :: rest)).subset
            (removeFirst_subset hx)))
    refine ⟨((a :: b :: rest).getLastD "", m2) :: pairs2, ?_, ?_⟩
    · rw [genLoop_cons_cons_step mpm fm rand k a b rest m2 hm2ok hcont, hrec]
      rfl
    · have hLperm : (a :: b :: rest).Perm
          ((a :: b :: rest).getLastD "" :: (a :: b :: rest).dropLast) :=
        cons_perm_getLastD_dropLast _ hLne
      rcases hpar with ⟨hpar1, hpar2⟩ | ⟨hpar1, hpar2⟩
      · left
        constructor
        · simp only [List.length_cons]
          omega
        · calc pairsFlat (((a :: b :: rest).getLastD "", m2) :: pairs2)
              = (a :: b :: rest).getLastD "" :: m2 :: pairsFlat pairs2 := rfl
            _ ~ (a :: b :: rest).getLastD ""
                :: m2 :: removeFirst ((a :: b :: rest).dropLast) m2 :=
              (hpar2.cons m2).cons _
            _ ~ (a :: b :: rest).getLastD "" :: (a :: b :: rest).dropLast :=
              (hRperm.symm).cons _
            _ ~ (a :: b :: rest) := hLperm.symm
      · right
        constructor
        · simp only [List.length_cons]
          omega
        · calc pairsFlat (((a :: b :: rest).getLastD "", m2) :: pairs2)
              = (a :: b :: rest).getLastD "" :: m2 :: pairsFlat pairs2 := rfl
            _ ~ (a :: b :: rest).getLastD ""
                :: m2 :: (fm :: removeFirst ((a :: b :: rest).dropLast) m2) :=
              (hpar2.cons m2).cons _
            _ ~ (a :: b :: rest).getLastD ""
                :: fm :: (m2 :: removeFirst ((a :: b :: rest).dropLast) m2) :=
              (List.Perm.swap fm m2 _).cons _
            _ ~ fm :: ((a :: b :: rest).getLastD ""
                :: (m2 :: removeFirst ((a :: b :: rest).dropLast) m2)) :=
              List.Perm.swap fm _ _
            _ ~ fm :: ((a :: b :: rest).getLastD ""
                :: (a :: b :: rest).dropLast) :=
              ((hRperm.symm).cons _).cons fm
            _ ~ fm :: (a :: b :: rest) := (hLperm.symm).cons fm

lemma perm_count_eq {l1 l2 : List String} (p : l1.Perm l2) (a : String) :
    l1.count a = l2.count a :=
  p.countP_eq (· == a)

lemma nodup_count_one {l : List String} {m : String} (hnd : l.Nodup)
    (hm : m ∈ l) : l.count m = 1 := by
  induction l with
  | nil => cases hm
  | cons x xs ih =>
    rcases List.mem_cons.mp hm with h1 | h2
    · subst h1
      have hx : m ∉ xs := (List.nodup_cons.mp hnd).1
      rw [List.count_cons_self, List.count_eq_zero.mpr hx]
    · have hx : ¬ (x == m) = true := by
        intro hbeq
        have hxe : x = m := eq_of_beq hbeq
        subst hxe
        exact (List.nodup_cons.mp hnd).1 h2
      rw [List.count_cons, if_neg hx, Nat.add_zero]
      exact ih (List.nodup_cons.mp hnd).2 h2

/-- C6: `find_best_match` raises `PairingError` exactly when the pool
of available members is empty; otherwise it returns a member of the
pool, and whenever some available member is outside the drawn member's
avoid-set, the returned member is outside the avoid-set (avoid-free
candidates strictly preferred, fallback to the whole pool only when
every available member is in the avoid-set). -/
theorem find_best_match_spec (member1 : String)
    (available_members : List String) (mpm : MatchDict) (r : Nat)
    (avoid : List String) (hk : dictLookup mpm member1 = some avoid) :
    (available_members = [] ↔
      ∃ msg, find_best_match member1 available_members mpm r
        = .error (.pairingError msg)) ∧
    (available_members ≠ [] →
      ∃ m2, find_best_match member1 available_members mpm r = .ok m2 ∧
        m2 ∈ available_members ∧
        ((∃ m ∈ available_members, ¬ m ∈ avoid) → ¬ m2 ∈ avoid)) := by
  constructor
  · constructor
    · intro he
      subst he
      refine ⟨"No available members to match with " ++ member1, ?_⟩
      unfold find_best_match
      rw [if_pos (show ([] : List String).isEmpty = true from rfl)]
    · intro ⟨msg, hmsg⟩
      by_contra hne
      obtain ⟨m2, hok, _⟩ :=
        find_best_match_ok member1 available_members mpm r avoid hne hk
      rw [hok] at hmsg
      cases hmsg
  · intro hne
    obtain ⟨m2, hok, hmem⟩ :=
      find_best_match_ok member1 available_members mpm r avoid hne hk
    exact ⟨m2, hok, hmem, fun hex =>
      find_best_match_avoid_free member1 available_members mpm r avoid m2
        hk hex hok⟩

/-- C6 witness: pool `["B", "C"]`, avoid-set `["B"]`. -/
theorem find_best_match_spec_witness :
    dictLookup [("A", ["B"])] "A" = some ["B"] ∧
    ((["B", "C"] = ([] : List String) ↔
      ∃ msg, find_best_match "A" ["B", "C"] [("A", ["B"])] 0
        = .error (.pairingError msg)) ∧
    (["B", "C"] ≠ ([] : List String) →
      ∃ m2, find_best_match "A" ["B", "C"] [("A", ["B"])] 0 = .ok m2 ∧
        m2 ∈ ["B", "C"] ∧
        ((∃ m ∈ ["B", "C"], ¬ m ∈ ["B"]) → ¬ m2 ∈ ["B"]))) :=
  ⟨rfl, find_best_match_spec "A" ["B", "C"] [("A", ["B"])] 0 ["B"] rfl⟩

lemma generate_pairs_singleton (a0 : String)
    (previous_pairs : Option PairHistory) (rand : Nat → Nat) :
    generate_pairs [a0] previous_pairs [a0] rand = .ok [(a0, a0)] := by
  obtain ⟨av, hav⟩ := dictLookup_build [a0] previous_pairs a0 (by simp)
  unfold generate_pairs
  rw [if_neg (by simp)]
  exact genLoop_singleton (build_previous_matches_dict [a0] previous_pairs)
    ([a0].getLastD "") rand 0 a0 av hav

lemma generate_pairs_run (members : List String)
    (previous_pairs : Option PairHistory) (shuffled : List String)
    (rand : Nat → Nat) (hne : members ≠ []) (hperm : shuffled.Perm members) :
    ∃ pairs, generate_pairs members previous_pairs shuffled rand = .ok pairs ∧
      ((shuffled.length % 2 = 0 ∧ (pairsFlat pairs).Perm shuffled) ∨
       (shuffled.length % 2 = 1 ∧
         (pairsFlat pairs).Perm (shuffled.getLastD "" :: shuffled))) := by
  have hsne : shuffled ≠ [] := by
    intro he
    rw [he] at hperm
    have hl := hperm.length_eq
    rw [List.length_nil] at hl
    exact hne (List.length_eq_zero.mp hl.symm)
  obtain ⟨a, rest, hs⟩ := List.exists_cons_of_ne_nil hsne
  subst hs
  have hkeys : ∀ x ∈ (a :: rest), ∃ av,
      dictLookup (build_previous_matches_dict members previous_pairs) x
        = some av :=
    fun x hx => dictLookup_build members previous_pairs x (hperm.subset hx)
  obtain ⟨avfm, havfm⟩ := dictLookup_build members previous_pairs _
    (hperm.subset (getLastD_mem_of_ne_nil (a :: rest) (by simp)))
  obtain ⟨pairs, hok, hpar⟩ :=
    genLoop_spec (build_previous_matches_dict members previous_pairs)
      ((a :: rest).getLastD "") rand avfm havfm
      (a :: rest).length (a :: rest) le_rfl 0 hkeys
  refine ⟨pairs, ?_, hpar⟩
  unfold generate_pairs
  rw [if_neg (by simp [List.isEmpty_iff, hne])]
  exact hok

/-- C1: for every non-empty list of distinct members and every shuffle
of it, `generate_pairs` succeeds, every member named in the pairs is one
of the given members, each member appears exactly once across all pairs
except that with an odd member count the member drawn first after the
shuffle (the last element of the shuffled copy, popped first) appears
exactly twice, and a single member yields one self-pair. -/
theorem generate_pairs_matches_every_member (members : List String)
    (previous_pairs : Option PairHistory) (shuffled : List String)
    (rand : Nat → Nat) (hne : members ≠ []) (hnd : members.Nodup)
    (hperm : shuffled.Perm members) :
    ∃ pairs, generate_pairs members previous_pairs shuffled rand = .ok pairs ∧
      (∀ m ∈ pairsFlat pairs, m ∈ members) ∧
      (∀ m ∈ members, (pairsFlat pairs).count m
        = if members.length % 2 = 1 ∧ m = shuffled.getLastD ""
          then 2 else 1) ∧
      (∀ a, members = [a] → pairs = [(a, a)]) := by
  obtain ⟨pairs, hok, hpar⟩ :=
    generate_pairs_run members previous_pairs shuffled rand hne hperm
  have hlen_eq := hperm.length_eq
  have hfmmem : shuffled.getLastD "" ∈ members := by
    apply hperm.subset
    apply getLastD_mem_of_ne_nil
    intro he
    rw [he] at hlen_eq
    rw [List.length_nil] at hlen_eq
    exact hne (List.length_eq_zero.mp hlen_eq.symm)
  refine ⟨pairs, hok, ?_, ?_, ?_⟩
  · intro m hm
    rcases hpar with ⟨_, hp2⟩ | ⟨_, hp2⟩
    · exact hperm.subset (hp2.subset hm)
    · rcases List.mem_cons.mp (hp2.subset hm) with h1 | h2
      · rw [h1]; exact hfmmem
      · exact hperm.subset h2
  · intro m hm
    have hcnt_mem : members.count m = 1 := nodup_count_one hnd hm
    rcases hpar with ⟨hp1, hp2⟩ | ⟨hp1, hp2⟩
    · have hcond : ¬ (members.length % 2 = 1 ∧ m = shuffled.getLastD "") := by
        intro ⟨hodd, _⟩
        omega
      rw [if_neg hcond, perm_count_eq hp2 m, perm_count_eq hperm m, hcnt_mem]
    · by_cases hmf : m = shuffled.getLastD ""
      · rw [if_pos ⟨by omega, hmf⟩, perm_count_eq hp2 m, List.count_cons,
          if_pos (beq_iff_eq.mpr hmf.symm), perm_count_eq hperm m, hcnt_mem]
      · have hnb : ¬ (shuffled.getLastD "" == m) = true := by
          intro hb
          exact hmf (eq_of_beq hb).symm
        rw [if_neg (by intro ⟨_, h2⟩; exact hmf h2), perm_count_eq hp2 m,
          List.count_cons, if_neg hnb, Nat.add_zero, perm_count_eq hperm m,
          hcnt_mem]
  · intro a0 hm0
    subst hm0
    have hsing : shuffled = [a0] := List.perm_singleton.mp hperm
    rw [hsing] at hok
    have hcomp := generate_pairs_singleton a0 previous_pairs rand
    rw [hok] at hcomp
    exact Except.ok.inj hcomp

/-- C1 witness: three members with a concrete shuffle and choice
oracle. -/
theorem generate_pairs_matches_witness :
    (["A", "B", "C"] : List String) ≠ [] ∧
    (["A", "B", "C"] : List String).Nodup ∧
    (["B", "C", "A"] : List String).Perm ["A", "B", "C"] ∧
    (∃ pairs, generate_pairs ["A", "B", "C"] none ["B", "C", "A"]
        (fun _ => 0) = .ok pairs ∧
      (∀ m ∈ pairsFlat pairs, m ∈ (["A", "B", "C"] : List String)) ∧
      (∀ m ∈ (["A", "B", "C"] : List String), (pairsFlat pairs).count m
        = if (["A", "B", "C"] : List String).length % 2 = 1
              ∧ m = (["B", "C", "A"] : List String).getLastD ""
          then 2 else 1) ∧
      (∀ a, (["A", "B", "C"] : List String) = [a] → pairs = [(a, a)])) :=
  ⟨by decide, by decide, by decide,
    generate_pairs_matches_every_member ["A", "B", "C"] none ["B", "C", "A"]
      (fun _ => 0) (by decide) (by decide) (by decide)⟩

/-- C3: for N distinct members, `generate_pairs` returns exactly
⌈N/2⌉ = (N+1)/2 pairs (N/2 for even N), and for the empty list an empty
round without raising any error. -/
theorem generate_pairs_pair_count (members : List String)
    (previous_pairs : Option PairHistory) (shuffled : List String)
    (rand : Nat → Nat) (hnd : members.Nodup)
    (hperm : shuffled.Perm members) :
    ∃ pairs, generate_pairs members previous_pairs shuffled rand = .ok pairs ∧
      pairs.length = (members.length + 1) / 2 ∧
      (members = [] → pairs = []) := by
  by_cases hne : members = []
  · subst hne
    refine ⟨[], ?_, rfl, fun _ => rfl⟩
    unfold generate_pairs
    rw [if_pos (show ([] : List String).isEmpty = true from rfl)]
  · obtain ⟨pairs, hok, hpar⟩ :=
      generate_pairs_run members previous_pairs shuffled rand hne hperm
    refine ⟨pairs, hok, ?_, fun habs => absurd habs hne⟩
    have hflat := pairsFlat_length pairs
    have hlen_eq := hperm.length_eq
    rcases hpar with ⟨hp1, hp2⟩ | ⟨hp1, hp2⟩
    · have hfl := hp2.length_eq
      omega
    · have hfl := hp2.length_eq
      rw [List.length_cons] at hfl
      omega

/-- C3 witness: four members with a concrete shuffle. -/
theorem generate_pairs_pair_count_witness :
    (["A", "B", "C", "D"] : List String).Nodup ∧
    (["D", "C", "B", "A"] : List String).Perm ["A", "B", "C", "D"] ∧
    (∃ pairs, generate_pairs ["A", "B", "C", "D"] none ["D", "C", "B", "A"]
        (fun _ => 0) = .ok pairs ∧
      pairs.length = ((["A", "B", "C", "D"] : List String).length + 1) / 2 ∧
      ((["A", "B", "C", "D"] : List String) = [] → pairs = [])) :=
  ⟨by decide, by decide,
    generate_pairs_pair_count ["A", "B", "C", "D"] none ["D", "C", "B", "A"]
      (fun _ => 0) (by decide) (by decide)⟩

/-- A Python heap object of `generate_pairs`: a list of member strings,
or the (optional) pair history. -/
inductive PyObj where
  | strList (l : List String)
  | hist (h : Option PairHistory)

/-- A heap, mapping addresses to objects; distinct addresses are
distinct Python objects. -/
abbrev Heap := Nat → PyObj

/-- In-place mutation of one heap cell. -/
def hupdate (heap : Heap) (addr : Nat) (v : PyObj) : Heap :=
  fun q => if q = addr then v else heap q

/-- Dereferencing a list-of-strings cell. -/
def readStrList (heap : Heap) (addr : Nat) : List String :=
  match heap addr with
  | .strList l => l
  | .hist _ => []

/-- Dereferencing the history cell. -/
def readHist (heap : Heap) (addr : Nat) : Option PairHistory :=
  match heap addr with
  | .hist h => h
  | .strList _ => none

/-- The `while available` loop of `generate_pairs` with the in-place
mutation of the `available` list object made explicit: the list
argument is the current value of the cell at `availAddr`, every `pop()`
and `list.remove` writes that cell and no other, and the heap is
returned at normal or exceptional exit. -/
def genLoopHeap (mpm : MatchDict) (first_member : String)
    (rand : Nat → Nat) (availAddr : Nat) :
    Nat → List String → Heap → (Except PyError PairList) × Heap
  | _, [], heap => (.ok [], heap)
  | k, [a], heap =>
    match find_best_match first_member [a] mpm (rand k) with
    | .error e => (.error e, heap)
    | .ok member2 =>
      if member2 == a then
        (.ok [(first_member, member2)],
          hupdate heap availAddr (.strList (removeFirst [a] member2)))
      else (.error (.valueError member2), heap)
  | k, a :: b :: rest, heap =>
    let member1 := (a :: b :: rest).getLastD ""
    let remaining := (a :: b :: rest).dropLast
    let heap1 := hupdate heap availAddr (.strList remaining)
    match find_best_match member1 remaining mpm (rand k) with
    | .error e => (.error e, heap1)
    | .ok member2 =>
      if remaining.contains member2 then
        let remaining2 := removeFirst remaining member2
        let heap2 := hupdate heap1 availAddr (.strList remaining2)
        let r := genLoopHeap mpm first_member rand availAddr (k + 1)
          remaining2 heap2
        (r.1.map (fun more => (member1, member2) :: more), r.2)
      else (.error (.valueError member2), heap1)
termination_by k l heap => l.length
decreasing_by
  have h1 := removeFirst_length_le ((a :: b :: rest).dropLast) member2
  simp only [List.dropLast_cons₂, List.length_cons, List.length_dropLast]
    at h1 ⊢
  omega

lemma genLoopHeap_cons_cons_step (mpm : MatchDict) (first_member : String)
    (rand : Nat → Nat) (availAddr : Nat) (k : Nat) (a b : String)
    (rest : List String) (heap : Heap) (m2 : String)
    (hm2ok : find_best_match ((a :: b :: rest).getLastD "")
        ((a :: b :: rest).dropLast) mpm (rand k) = .ok m2)
    (hcont : ((a :: b :: rest).dropLast).contains m2 = true) :
    genLoopHeap mpm first_member rand availAddr k (a :: b :: rest) heap
      = ((genLoopHeap mpm first_member rand availAddr (k + 1)
            (removeFirst ((a :: b :: rest).dropLast) m2)
            (hupdate
              (hupdate heap availAddr (.strList ((a :: b :: rest).dropLast)))
              availAddr
              (.strList (removeFirst ((a :: b :: rest).dropLast) m2)))).1.map
            (fun more => ((a :: b :: rest).getLastD "", m2) :: more),
          (genLoopHeap mpm first_member rand availAddr (k + 1)
            (removeFirst ((a :: b :: rest).dropLast) m2)
            (hupdate
              (hupdate heap availAddr (.strList ((a :: b :: rest).dropLast)))
              availAddr
              (.strList (removeFirst ((a :: b :: rest).dropLast) m2)))).2) := by
  simp only [genLoopHeap]
  rw [hm2ok]
  show (if ((a :: b :: rest).dropLast).contains m2 = true then
      ((genLoopHeap mpm first_member rand availAddr (k + 1)
          (removeFirst ((a :: b :: rest).dropLast) m2)
          (hupdate
            (hupdate heap availAddr (.strList ((a :: b :: rest).dropLast)))
            availAddr
            (.strList (removeFirst ((a :: b :: rest).dropLast) m2)))).1.map
          (fun more => ((a :: b :: rest).getLastD "", m2) :: more),
        (genLoopHeap mpm first_member rand availAddr (k + 1)
          (removeFirst ((a :: b :: rest).dropLast) m2)
          (hupdate
            (hupdate heap availAddr (.strList ((a :: b :: rest).dropLast)))
            availAddr
            (.strList (removeFirst ((a :: b :: rest).dropLast) m2)))).2)
    else (Except.error (PyError.valueError m2),
      hupdate heap availAddr (.strList ((a :: b :: rest).dropLast)))) = _
  rw [if_pos hcont]

lemma genLoopHeap_frame (mpm : MatchDict) (first_member : String)
    (rand : Nat → Nat) (availAddr : Nat) :
    ∀ (n : Nat) (l : List String), l.length ≤ n →
      ∀ (k : Nat) (heap : Heap) (q : Nat), q ≠ availAddr →
      (genLoopHeap mpm first_member rand availAddr k l heap).2 q = heap q := by
  intro n
  induction n with
  | zero =>
    intro l hlen k heap q hq
    have hnil : l = [] := List.length_eq_zero.mp (Nat.le_zero.mp hlen)
    subst hnil
    simp [genLoopHeap]
  | succ n ih =>
    intro l hlen k heap q hq
    rcases l with _ | ⟨a, l2⟩
    · simp [genLoopHeap]
    rcases l2 with _ | ⟨c, rest⟩
    · cases hf : find_best_match first_member [a] mpm (rand k) with
      | error e =>
        simp only [genLoopHeap]
        rw [hf]
      | ok m2 =>
        cases hbeq : m2 == a with
        | true =>
          simp only [genLoopHeap]
          rw [hf]
          simp at hbeq
          simp [hbeq, hupdate, hq]
        | false =>
          simp only [genLoopHeap]
          rw [hf]
          simp at hbeq
          simp [hbeq]
    · cases hf : find_best_match ((a :: c :: rest).getLastD "")
          ((a :: c :: rest).dropLast) mpm (rand k) with
      | error e =>
        simp only [genLoopHeap]
        rw [hf]
        simp [hupdate, hq]
      | ok m2 =>
        cases hcont : ((a :: c :: rest).dropLast).contains m2 with
        | false =>
          simp only [genLoopHeap]
          rw [hf]
          simp at hcont
          simp [hcont, hupdate, hq]
        | true =>
          rw [genLoopHeap_cons_cons_step mpm first_member rand availAddr k
            a c rest heap m2 hf hcont]
          have hlen2 : (removeFirst ((a :: c :: rest).dropLast) m2).length ≤ n := by
            have hr := removeFirst_length_le ((a :: c :: rest).dropLast) m2
            simp only [List.length_cons, List.length_dropLast] at hr hlen ⊢
            omega
          rw [show ((genLoopHeap mpm first_member rand availAddr (k + 1)
              (removeFirst ((a :: c :: rest).dropLast) m2)
              (hupdate
                (hupdate heap availAddr
                  (.strList ((a :: c :: rest).dropLast)))
                availAddr
                (.strList (removeFirst ((a :: c :: rest).dropLast) m2)))).1.map
              (fun more => ((a :: c :: rest).getLastD "", m2) :: more),
            (genLoopHeap mpm first_member rand availAddr (k + 1)
              (removeFirst ((a :: c :: rest).dropLast) m2)
              (hupdate
                (hupdate heap availAddr
                  (.strList ((a :: c :: rest).dropLast)))
                availAddr
                (.strList (removeFirst ((a :: c :: rest).dropLast) m2)))).2).2
            = (genLoopHeap mpm first_member rand availAddr (k + 1)
              (removeFirst ((a :: c :: rest).dropLast) m2)
              (hupdate
                (hupdate heap availAddr
                  (.strList ((a :: c :: rest).dropLast)))
                availAddr
                (.strList (removeFirst ((a :: c :: rest).dropLast) m2)))).2
            from rfl]
          rw [ih (removeFirst ((a :: c :: rest).dropLast) m2) hlen2 (k + 1)
            (hupdate
              (hupdate heap availAddr (.strList ((a :: c :: rest).dropLast)))
              availAddr
              (.strList (removeFirst ((a :: c :: rest).dropLast) m2))) q hq]
          simp [hupdate, hq]

/-- `generate_pairs` with the heap made explicit (pairing.py lines
134-161): the caller's `members` list lives at `membersAddr`, the
history at `historyAddr`, and `available = members.copy()` allocates
the fresh cell `availAddr`, which is the only cell the shuffle and the
loop write. -/
def generate_pairs_mut (heap : Heap)
    (membersAddr historyAddr availAddr : Nat)
    (shuffle : List String → List String) (rand : Nat → Nat) :
    (Except PyError PairList) × Heap :=
  let members := readStrList heap membersAddr
  let previous_pairs := readHist heap historyAddr
  if members.isEmpty then (.ok [], heap)
  else
    let heap1 := hupdate heap availAddr (.strList (shuffle members))
    let members_previous_matches :=
      build_previous_matches_dict members previous_pairs
    match readStrList heap1 availAddr with
    | [] => (.error (.indexError "list index out of range"), heap1)
    | a :: rest =>
      genLoopHeap members_previous_matches ((a :: rest).getLastD "") rand
        availAddr 0 (a :: rest) heap1

lemma generate_pairs_mut_frame (heap : Heap)
    (membersAddr historyAddr availAddr q : Nat)
    (shuffle : List String → List String) (rand : Nat → Nat)
    (hq : q ≠ availAddr) :
    (generate_pairs_mut heap membersAddr historyAddr availAddr
      shuffle rand).2 q = heap q := by
  unfold generate_pairs_mut
  by_cases hne : (readStrList heap membersAddr).isEmpty
  · rw [if_pos hne]
  · rw [if_neg hne]
    show (match readStrList
        (hupdate heap availAddr
          (.strList (shuffle (readStrList heap membersAddr)))) availAddr with
      | [] => ((Except.error (PyError.indexError "list index out of range") :
            Except PyError PairList),
          hupdate heap availAddr
            (.strList (shuffle (readStrList heap membersAddr))))
      | a :: rest =>
        genLoopHeap
          (build_previous_matches_dict (readStrList heap membersAddr)
            (readHist heap historyAddr))
          ((a :: rest).getLastD "") rand availAddr 0 (a :: rest)
          (hupdate heap availAddr
            (.strList (shuffle (readStrList heap membersAddr))))).2 q
      = heap q
    cases hs : readStrList
        (hupdate heap availAddr
          (.strList (shuffle (readStrList heap membersAddr)))) availAddr with
    | nil => simp [hupdate, hq]
    | cons a rest =>
      show (genLoopHeap
          (build_previous_matches_dict (readStrList heap membersAddr)
            (readHist heap historyAddr))
          ((a :: rest).getLastD "") rand availAddr 0 (a :: rest)
          (hupdate heap availAddr
            (.strList (shuffle (readStrList heap membersAddr))))).2 q
        = heap q
      rw [genLoopHeap_frame _ _ rand availAddr (a :: rest).length (a :: rest)
        le_rfl 0 _ q hq]
      simp [hupdate, hq]

/-- C10: `generate_pairs` does not mutate its arguments: the caller's
members list object and history object are unchanged by the call
(normal or exceptional), because the engine shuffles and pops only the
private copy `available = members.copy()` living at a fresh address. -/
theorem generate_pairs_no_mutation (heap : Heap)
    (membersAddr historyAddr availAddr : Nat)
    (shuffle : List String → List String) (rand : Nat → Nat)
    (hm : availAddr ≠ membersAddr) (hh : availAddr ≠ historyAddr) :
    (generate_pairs_mut heap membersAddr historyAddr availAddr
      shuffle rand).2 membersAddr = heap membersAddr ∧
    (generate_pairs_mut heap membersAddr historyAddr availAddr
      shuffle rand).2 historyAddr = heap historyAddr :=
  ⟨generate_pairs_mut_frame heap membersAddr historyAddr availAddr
      membersAddr shuffle rand (fun he => hm he.symm),
    generate_pairs_mut_frame heap membersAddr historyAddr availAddr
      historyAddr shuffle rand (fun he => hh he.symm)⟩

/-- Example heap for the C10 witness: the members list at address 0,
the history at address 1, the private copy allocated at address 2. -/
def exampleHeap : Heap := fun addr =>
  if addr = 0 then .strList ["A", "B", "C"]
  else if addr = 1 then .hist (some [[("A", "B")]])
  else .strList []

/-- C10 witness: evaluated on a concrete three-member heap. -/
theorem generate_pairs_no_mutation_witness :
    (2 : Nat) ≠ 0 ∧ (2 : Nat) ≠ 1 ∧
    ((generate_pairs_mut exampleHeap 0 1 2 List.reverse (fun _ => 0)).2 0
        = exampleHeap 0 ∧
      (generate_pairs_mut exampleHeap 0 1 2 List.reverse (fun _ => 0)).2 1
        = exampleHeap 1) :=
  ⟨by decide, by decide,
    generate_pairs_no_mutation exampleHeap 0 1 2 List.reverse (fun _ => 0)
      (by decide) (by decide)⟩

end RandomCoffee
